import Mathlib

set_option maxHeartbeats 1000000

/-
Shallow embedding of the contact-book core in src/adressbook_new.py:
validated fields (Phone, Birthday), Record, AddressBook and the
birthday scheduler get_birthdays_per_week.  Python exceptions are
modelled with Except, the Python dict with an association list in
insertion order, and the implicit "today" of the scheduler is passed
as an explicit (year, month, day) argument, as the spec directs.
-/

/-! ## Unicode decimal digits

Python's `re` module matches `\d` against every character of Unicode
category Nd.  Nd consists of runs of ten consecutive code points;
`ndStarts` lists the first code point of each run. -/

def ndStarts : List Nat :=
  [0x30, 0x660, 0x6F0, 0x7C0, 0x966, 0x9E6, 0xA66, 0xAE6, 0xB66, 0xBE6,
   0xC66, 0xCE6, 0xD66, 0xDE6, 0xE50, 0xED0, 0xF20, 0x1040, 0x1090, 0x17E0,
   0x1810, 0x1946, 0x19D0, 0x1A80, 0x1A90, 0x1B50, 0x1BB0, 0x1C40, 0x1C50,
   0xA620, 0xA8D0, 0xA900, 0xA9D0, 0xA9F0, 0xAA50, 0xABF0, 0xFF10,
   0x104A0, 0x10D30, 0x11066, 0x110F0, 0x11136, 0x111D0, 0x112F0, 0x11450,
   0x114D0, 0x11650, 0x116C0, 0x11730, 0x118E0, 0x11950, 0x11C50, 0x11D50,
   0x11DA0, 0x16A60, 0x16AC0, 0x16B50, 0x1D7CE, 0x1D7D8, 0x1D7E2, 0x1D7EC,
   0x1D7F6, 0x1E140, 0x1E2F0, 0x1E950, 0x1FBF0]

/-- Numeric value of a Unicode decimal digit (its offset inside its Nd
run), `none` for every other character.  `int()` in Python converts
digit strings with exactly these values. -/
def ndVal (c : Char) : Option Nat :=
  (ndStarts.find? (fun s => decide (s ≤ c.toNat ∧ c.toNat < s + 10))).map
    (fun s => c.toNat - s)

/-- Python regex `\d`: membership in Unicode category Nd. -/
def isNd (c : Char) : Bool := (ndVal c).isSome

/-- ASCII character class `[1-9]` used by strptime's day and month
patterns. -/
def isA19 (c : Char) : Bool := decide ('1' ≤ c ∧ c ≤ '9')

/-! ## The phone regex

`Phone.__init__` accepts `value` iff `re.match(r'^\d{10}$', value)`
succeeds: ten `\d` characters followed by the `$` anchor, which in
Python matches at the end of the string or just before one trailing
newline. -/

/-- Consume exactly `n` characters matching `\d`, returning the rest. -/
def takeNd : Nat → List Char → Option (List Char)
  | 0, cs => some cs
  | n + 1, c :: cs => if isNd c then takeNd n cs else none
  | _ + 1, [] => none

/-- Python's `$` anchor (no MULTILINE): end of input, or a single final
newline. -/
def dollarEnd : List Char → Bool
  | [] => true
  | [c] => c == '\n'
  | _ => false

/-- `re.match(r'^\d{10}$', s)` succeeds. -/
def phoneMatches (s : String) : Bool :=
  match takeNd 10 s.data with
  | some rest => dollarEnd rest
  | none => false

structure Phone where
  value : String
deriving DecidableEq

/-- `Phone.__init__`: raise ValueError unless the regex matches, else
store the raw string unchanged. -/
def Phone.init (value : String) : Except String Phone :=
  if phoneMatches value then .ok ⟨value⟩ else .error "Invalid phone number format"

/-! ## strptime("%d-%m-%Y")

CPython compiles the format to the regex
`(?P<d>3[0-1]|[1-2]\d|0[1-9]|[1-9]| [1-9])\-(?P<m>1[0-2]|0[1-9]|[1-9])\-(?P<Y>\d\d\d\d)`
— the day group carries a fifth alternative, a space followed by a
digit, kept so that ANSI C `%c` output parses; the month and year
groups have no such alternative.  CPython matches the pattern at the
start of the string with alternation preference and backtracking,
raises ValueError if the match does not cover the whole string,
converts each group with `int()` (which ignores the space-day form's
leading blank), and finally builds a `datetime`, which raises
ValueError for a non-existent calendar date (year outside 1..9999 or
day past the month's end). -/

/-- Day group, two-character alternatives `3[01]|[12]\d|0[1-9]`. -/
def day2Tok : List Char → Option (Nat × List Char)
  | c1 :: c2 :: r =>
    if c1 = '3' then
      if c2 = '0' ∨ c2 = '1' then some (30 + (c2.toNat - 48), r) else none
    else if c1 = '1' ∨ c1 = '2' then
      match ndVal c2 with
      | some v => some (10 * (c1.toNat - 48) + v, r)
      | none => none
    else if c1 = '0' then
      if isA19 c2 then some (c2.toNat - 48, r) else none
    else none
  | _ => none

/-- Day group, one-character alternative `[1-9]`. -/
def day1Tok : List Char → Option (Nat × List Char)
  | c :: r => if isA19 c then some (c.toNat - 48, r) else none
  | [] => none

/-- Day group, final alternative ` [1-9]`: a space, then a digit.
`int()` ignores the leading space, so the value is the digit. -/
def daySpTok : List Char → Option (Nat × List Char)
  | c1 :: c2 :: r =>
    if c1 = ' ' then
      if isA19 c2 then some (c2.toNat - 48, r) else none
    else none
  | _ => none

/-- Month group, two-character alternatives `1[0-2]|0[1-9]`. -/
def mon2Tok : List Char → Option (Nat × List Char)
  | c1 :: c2 :: r =>
    if c1 = '1' then
      if c2 = '0' ∨ c2 = '1' ∨ c2 = '2' then some (10 + (c2.toNat - 48), r) else none
    else if c1 = '0' then
      if isA19 c2 then some (c2.toNat - 48, r) else none
    else none
  | _ => none

/-- Month group, one-character alternative `[1-9]`. -/
def mon1Tok : List Char → Option (Nat × List Char)
  | c :: r => if isA19 c then some (c.toNat - 48, r) else none
  | [] => none

/-- Year group `\d\d\d\d`, converted with `int()`. -/
def year4Tok : List Char → Option (Nat × List Char)
  | a :: b :: c :: d :: r =>
    match ndVal a, ndVal b, ndVal c, ndVal d with
    | some va, some vb, some vc, some vd =>
      some (1000 * va + 100 * vb + 10 * vc + vd, r)
    | _, _, _, _ => none
  | _ => none

/-- Literal `-` of the format string. -/
def dashTok : List Char → Option (List Char)
  | c :: r => if c = '-' then some r else none
  | [] => none

/-- After day and month groups: `-`, then the year group. -/
def matchAfterMonth (d m : Nat) (cs : List Char) : Option (Nat × Nat × Nat × List Char) :=
  match dashTok cs with
  | none => none
  | some r =>
    match year4Tok r with
    | some (y, r2) => some (d, m, y, r2)
    | none => none

/-- After the day group: `-`, then the month alternation (two-character
alternatives preferred, falling back to `[1-9]` when the rest of the
pattern fails). -/
def matchAfterDay (d : Nat) (cs : List Char) : Option (Nat × Nat × Nat × List Char) :=
  match dashTok cs with
  | none => none
  | some r =>
    match (match mon2Tok r with
           | some (m, r2) => matchAfterMonth d m r2
           | none => none) with
    | some res => some res
    | none =>
      match mon1Tok r with
      | some (m, r2) => matchAfterMonth d m r2
      | none => none

/-- One alternative of the day alternation: the token, then the rest of
the pattern. -/
def dayBranch (tok : List Char → Option (Nat × List Char)) (cs : List Char) :
    Option (Nat × Nat × Nat × List Char) :=
  match tok cs with
  | some (d, r) => matchAfterDay d r
  | none => none

/-- The whole pattern, with the day alternation in CPython's order: the
three two-character digit alternatives, then `[1-9]`, then the
space-digit alternative ` [1-9]`, backtracking into the rest of the
pattern after each. -/
def matchDMY (cs : List Char) : Option (Nat × Nat × Nat × List Char) :=
  match dayBranch day2Tok cs with
  | some res => some res
  | none =>
    match dayBranch day1Tok cs with
    | some res => some res
    | none => dayBranch daySpTok cs

/-- 400/100/4 leap-year rule of the proleptic Gregorian calendar used by
`datetime`. -/
def isLeap (y : Nat) : Bool :=
  (y % 4 == 0 && y % 100 != 0) || y % 400 == 0

def daysInMonth (y m : Nat) : Nat :=
  if m = 2 then (if isLeap y then 29 else 28)
  else if m = 4 ∨ m = 6 ∨ m = 9 ∨ m = 11 then 30
  else 31

/-- The `datetime.date` constructor's validity check. -/
def isValidDate (y m d : Nat) : Bool :=
  decide (1 ≤ y ∧ y ≤ 9999 ∧ 1 ≤ m ∧ m ≤ 12 ∧ 1 ≤ d ∧ d ≤ daysInMonth y m)

/-- `datetime.strptime(s, "%d-%m-%Y")`, returning the parsed
(day, month, year) or `none` where Python raises ValueError. -/
def strptime_dmY (s : String) : Option (Nat × Nat × Nat) :=
  match matchDMY s.data with
  | some (d, m, y, rest) =>
    if rest.isEmpty then
      if isValidDate y m d then some (d, m, y) else none
    else none
  | none => none

structure Birthday where
  value : String
deriving DecidableEq

/-- `Birthday.__init__`: raise ValueError when strptime does, else store
the raw string unchanged. -/
def Birthday.init (value : String) : Except String Birthday :=
  match strptime_dmY value with
  | some _ => .ok ⟨value⟩
  | none => .error "Invalid birthday format. Use DD-MM-YYYY."

/-! ## Record -/

structure Record where
  name : String
  phones : List Phone
  birthday : Option Birthday
deriving DecidableEq

/-- `Record.__init__(name, birthday=None)`: the birthday argument is
validated only when truthy, so `None` and the empty string both give a
record without a birthday. -/
def Record.init (name : String) (birthday : Option String) : Except String Record :=
  match birthday with
  | none => .ok ⟨name, [], none⟩
  | some b =>
    if b = "" then .ok ⟨name, [], none⟩
    else
      match Birthday.init b with
      | .ok bd => .ok ⟨name, [], some bd⟩
      | .error e => .error e

/-- `Record.add_phone`: validate, then append. -/
def Record.add_phone (r : Record) (phone : String) : Except String Record :=
  match Phone.init phone with
  | .ok p => .ok { r with phones := r.phones ++ [p] }
  | .error e => .error e

/-- `Record.remove_phone`: keep the phones whose string differs. -/
def Record.remove_phone (r : Record) (phone : String) : Record :=
  { r with phones := r.phones.filter (fun p => p.value != phone) }

/-- `Record.edit_phone`: remove the old value, then add the new one. -/
def Record.edit_phone (r : Record) (old_phone new_phone : String) : Except String Record :=
  (r.remove_phone old_phone).add_phone new_phone

/-- `Record.find_phone`: first phone with the given string, else None. -/
def Record.find_phone (r : Record) (phone : String) : Option Phone :=
  r.phones.find? (fun p => p.value == phone)

/-! ## AddressBook -/

structure AddressBook where
  data : List (String × Record)
deriving DecidableEq

/-- `self.data[name] = record` on a Python dict: replace in place when
the key exists, else append. -/
def dictSet (d : List (String × Record)) (k : String) (v : Record) :
    List (String × Record) :=
  if d.any (fun kv => kv.1 == k) then
    d.map (fun kv => if kv.1 == k then (k, v) else kv)
  else d ++ [(k, v)]

/-- `AddressBook.add_record(name, phone, birthday)`: build the record,
add the phone, and only then store; an exception in either step leaves
`self.data` untouched, which the Except result reflects. -/
def AddressBook.add_record (book : AddressBook) (name phone : String)
    (birthday : Option String) : Except String AddressBook :=
  match Record.init name birthday with
  | .error e => .error e
  | .ok r =>
    match r.add_phone phone with
    | .error e => .error e
    | .ok r2 => .ok ⟨dictSet book.data name r2⟩

/-- `AddressBook.find`: `self.data.get(name)`. -/
def AddressBook.find (book : AddressBook) (name : String) : Option Record :=
  (book.data.find? (fun kv => kv.1 == name)).map (fun kv => kv.2)

/-- `AddressBook.update_record`: replace when present, else KeyError. -/
def AddressBook.update_record (book : AddressBook) (name : String)
    (new_record : Record) : Except String AddressBook :=
  if book.data.any (fun kv => kv.1 == name) then
    .ok ⟨book.data.map (fun kv => if kv.1 == name then (name, new_record) else kv)⟩
  else .error ("Contact not found: " ++ name)

/-- `AddressBook.delete`: remove the entry when present. -/
def AddressBook.delete (book : AddressBook) (name : String) : AddressBook :=
  ⟨book.data.filter (fun kv => kv.1 != name)⟩

/-! ## The birthday scheduler

`get_birthdays_per_week` reads today's date from the system clock; here
it is an explicit (year, month, day) argument.  Date arithmetic follows
`datetime.date`: `toordinal` counts days in the proleptic Gregorian
calendar with 0001-01-01 as day 1 (a Monday), date subtraction is the
ordinal difference, and `strftime("%A")` names the weekday of the
ordinal. -/

/-- Days in the months before month `m` of year `y`. -/
def daysBeforeMonth (y m : Nat) : Nat :=
  (List.range (m - 1)).foldl (fun a i => a + daysInMonth y (i + 1)) 0

/-- `date(y, m, d).toordinal()`. -/
def toOrdinal (y m d : Nat) : Int :=
  365 * ((y : Int) - 1) + ((y : Int) - 1) / 4 - ((y : Int) - 1) / 100
    + ((y : Int) - 1) / 400 + daysBeforeMonth y m + d

def dayNames : List String :=
  ["Monday", "Tuesday", "Wednesday", "Thursday", "Friday", "Saturday", "Sunday"]

/-- `strftime("%A")` of the date with this ordinal. -/
def dayName (ord : Int) : String :=
  dayNames.getD ((ord - 1) % 7).toNat "Monday"

/-- The scheduler's `today_day` string. -/
def todayName (ty tm td : Nat) : String :=
  dayName (toOrdinal ty tm td)

/-- `today_day not in ["Monday", "Sunday", "Saturday"]`. -/
def notMonSatSun (s : String) : Bool :=
  !(s == "Monday" || s == "Sunday" || s == "Saturday")

/-- `date.replace(year=y)` keeps month and day and re-runs the date
constructor, raising ValueError on a non-existent date. -/
def dateReplaceYear (y m d : Nat) : Option (Nat × Nat × Nat) :=
  if isValidDate y m d then some (y, m, d) else none

/-- Lines 100-107 of the scheduler for one record: parse the stored
birthday string, anchor it to today's year, re-anchor to next year when
it passed less than three days ago and today is not Mon/Sat/Sun, and
return `delta_days`.  `.error` marks a raised ValueError. -/
def schedDelta (ty tm td : Nat) (v : String) : Except String Int :=
  match strptime_dmY v with
  | none => .error "time data does not match format"
  | some (bd, bm, _) =>
    match dateReplaceYear ty bm bd with
    | none => .error "day is out of range for month"
    | some (y1, m1, d1) =>
      let tOrd := toOrdinal ty tm td
      let bOrd := toOrdinal y1 m1 d1
      if bOrd < tOrd ∧ bOrd - tOrd > -3 ∧ notMonSatSun (todayName ty tm td) = true then
        match dateReplaceYear (ty + 1) bm bd with
        | none => .error "day is out of range for month"
        | some (y2, m2, d2) => .ok (toOrdinal y2 m2 d2 - tOrd)
      else .ok (bOrd - tOrd)

/-- Lines 110-121: the raw celebration weekday and the ordered chain of
shift rules, for a `delta_days` already inside the window; `none` is the
`continue` of the Monday branch. -/
def celebrationDay (ty tm td : Nat) (delta : Int) : Option String :=
  let tn := todayName ty tm td
  let raw := dayName (toOrdinal ty tm td + delta)
  if 0 ≤ delta ∧ delta < 7 ∧ notMonSatSun tn = true then
    some (if raw == "Sunday" || raw == "Saturday" then "Monday" else raw)
  else if 5 < delta ∧ delta < 7 ∧ tn = "Monday" then none
  else if -2 ≤ delta ∧ delta ≤ 0 ∧ tn = "Monday" then some "Monday"
  else if -1 ≤ delta ∧ delta = 0 ∧ tn = "Sunday" then some "Monday"
  else if delta = 0 ∧ tn = "Sunday" then some "Monday"
  else some raw

/-- One record of the scheduler loop: `.error` for a raised ValueError,
`.ok none` when the record is skipped, `.ok (some w)` when the contact
is appended to weekday bucket `w`. -/
def processRecord (ty tm td : Nat) (v : String) : Except String (Option String) :=
  match schedDelta ty tm td v with
  | .error e => .error e
  | .ok delta =>
    if -2 ≤ delta ∧ delta < 7 then .ok (celebrationDay ty tm td delta)
    else .ok none

/-- `defaultdict(list)[day].append(name)`: append to an existing bucket
in place, or create the bucket at the end. -/
def bucketsAppend : List (String × List String) → String → String →
    List (String × List String)
  | [], day, n => [(day, [n])]
  | (d, ns) :: rest, day, n =>
    if d = day then (d, ns ++ [n]) :: rest
    else (d, ns) :: bucketsAppend rest day n

/-- The names grouped under one weekday of the result. -/
def lookupBucket (m : List (String × List String)) (day : String) : List String :=
  ((m.find? (fun kv => kv.1 == day)).map (fun kv => kv.2)).getD []

/-- The scheduler loop over the stored records, accumulating the
weekday buckets; a ValueError aborts the whole call. -/
def schedGo (ty tm td : Nat) : List (String × Record) →
    List (String × List String) → Except String (List (String × List String))
  | [], acc => .ok acc
  | (name, rec) :: rest, acc =>
    match rec.birthday with
    | none => schedGo ty tm td rest acc
    | some b =>
      match processRecord ty tm td b.value with
      | .error e => .error e
      | .ok none => schedGo ty tm td rest acc
      | .ok (some day) => schedGo ty tm td rest (bucketsAppend acc day name)

/-- `AddressBook.get_birthdays_per_week`, returning the weekday-to-names
mapping instead of printing it, with "today" explicit. -/
def AddressBook.get_birthdays_per_week (book : AddressBook) (ty tm td : Nat) :
    Except String (List (String × List String)) :=
  schedGo ty tm td book.data []

/-- Whether an operation raised. -/
def isErr {α : Type} : Except String α → Bool
  | .error _ => true
  | .ok _ => false

/-! ## Spec-side characterisations

Declarative descriptions of the two validators, used to state the
(corrected) parsing claims against the operational embeddings above. -/

/-- What `^\d{10}$` accepts under Python semantics: ten Unicode decimal
digits, optionally followed by one final newline. -/
def phoneSpec (s : String) : Prop :=
  ∃ ds rest, s.data = ds ++ rest ∧ ds.length = 10 ∧
    (∀ c ∈ ds, isNd c = true) ∧ (rest = [] ∨ rest = ['\n'])

/-- The day field of "%d-%m-%Y": `3[01]`, `[12]\d`, `0[1-9]`, `[1-9]`
or ` [1-9]` (a space, then a digit), together with its numeric
value. -/
def dayShape : List Char → Nat → Prop
  | [c], v => isA19 c = true ∧ v = c.toNat - 48
  | [c1, c2], v =>
    (c1 = '3' ∧ (c2 = '0' ∨ c2 = '1') ∧ v = 30 + (c2.toNat - 48)) ∨
    ((c1 = '1' ∨ c1 = '2') ∧ ∃ w, ndVal c2 = some w ∧ v = 10 * (c1.toNat - 48) + w) ∨
    (c1 = '0' ∧ isA19 c2 = true ∧ v = c2.toNat - 48) ∨
    (c1 = ' ' ∧ isA19 c2 = true ∧ v = c2.toNat - 48)
  | _, _ => False

/-- The month field of "%d-%m-%Y": `1[0-2]`, `0[1-9]` or `[1-9]`. -/
def monShape : List Char → Nat → Prop
  | [c], v => isA19 c = true ∧ v = c.toNat - 48
  | [c1, c2], v =>
    (c1 = '1' ∧ (c2 = '0' ∨ c2 = '1' ∨ c2 = '2') ∧ v = 10 + (c2.toNat - 48)) ∨
    (c1 = '0' ∧ isA19 c2 = true ∧ v = c2.toNat - 48)
  | _, _ => False

/-- The year field of "%d-%m-%Y": exactly four decimal digits. -/
def yearShape (cs : List Char) (y : Nat) : Prop :=
  ∃ a b c d va vb vc vd, cs = [a, b, c, d] ∧
    ndVal a = some va ∧ ndVal b = some vb ∧ ndVal c = some vc ∧ ndVal d = some vd ∧
    y = 1000 * va + 100 * vb + 10 * vc + vd

/-- What `Birthday` accepts: a day field, a dash, a month field, a dash
and a year field covering the whole string, naming a date the `datetime`
constructor allows. -/
def birthdaySpec (s : String) : Prop :=
  ∃ A B C d m y, s.data = A ++ '-' :: (B ++ '-' :: C) ∧
    dayShape A d ∧ monShape B m ∧ yearShape C y ∧ isValidDate y m d = true

/-! ## Reachable states

The public mutations of the interpreter, as one operation language: a
command either goes through the AddressBook (`add_record`,
`update_record` with a record built from `Record.__init__` and the
phone methods, `delete`) or mutates a found record in place with a
phone method.  A raised ValueError is caught by the command layer, so
the state after an operation is the state at the moment of the raise
(for `edit_phone` with an invalid replacement that is the state with
the old phone already removed). -/

inductive ROp
  | addPhone (p : String)
  | removePhone (p : String)
  | editPhone (o n : String)

/-- State of a record after running one phone method under a
ValueError-catching caller. -/
def Record.applyOp (r : Record) : ROp → Record
  | .addPhone p =>
    match r.add_phone p with
    | .ok r2 => r2
    | .error _ => r
  | .removePhone p => r.remove_phone p
  | .editPhone o n =>
    match (r.remove_phone o).add_phone n with
    | .ok r2 => r2
    | .error _ => r.remove_phone o

inductive BOp
  | addRecord (name phone : String) (birthday : Option String)
  | updateRecord (target name : String) (birthday : Option String) (ops : List ROp)
  | recOp (name : String) (op : ROp)
  | delete (name : String)

/-- A record built by callers of `update_record`: `Record.__init__`
followed by phone methods; `none` when the constructor itself raises. -/
def buildRecord (name : String) (birthday : Option String) (ops : List ROp) :
    Option Record :=
  match Record.init name birthday with
  | .ok r => some (ops.foldl Record.applyOp r)
  | .error _ => none

/-- State of the book after one public operation. -/
def AddressBook.applyBOp (book : AddressBook) : BOp → AddressBook
  | .addRecord name phone birthday =>
    match book.add_record name phone birthday with
    | .ok b2 => b2
    | .error _ => book
  | .updateRecord target name birthday ops =>
    match buildRecord name birthday ops with
    | some nr =>
      match book.update_record target nr with
      | .ok b2 => b2
      | .error _ => book
    | none => book
  | .recOp name op =>
    ⟨book.data.map (fun kv => if kv.1 == name then (kv.1, kv.2.applyOp op) else kv)⟩
  | .delete name => book.delete name

/-- The book reached from the empty initial state by a command
sequence. -/
def AddressBook.runOps (ops : List BOp) : AddressBook :=
  ops.foldl AddressBook.applyBOp ⟨[]⟩

/-- Every phone stored in the record passed the regex check. -/
def RecordOK (r : Record) : Prop :=
  ∀ p ∈ r.phones, phoneMatches p.value = true

/-- Every phone stored anywhere in the book passed the regex check. -/
def BookOK (book : AddressBook) : Prop :=
  ∀ kv ∈ book.data, RecordOK kv.2

/-! ## Theorems -/

theorem takeNd_iff (n : Nat) : ∀ (cs r : List Char),
    takeNd n cs = some r ↔
      ∃ ds, cs = ds ++ r ∧ ds.length = n ∧ ∀ c ∈ ds, isNd c = true := by
  induction n with
  | zero =>
    intro cs r
    simp only [takeNd, Option.some.injEq]
    constructor
    · intro h; exact ⟨[], by simp [h], rfl, by simp⟩
    · rintro ⟨ds, hcs, hlen, -⟩
      rw [List.length_eq_zero] at hlen
      simp [hlen] at hcs
      exact hcs
  | succ n ih =>
    intro cs r
    cases cs with
    | nil =>
      simp only [takeNd]
      constructor
      · intro h; cases h
      · rintro ⟨ds, hcs, hlen, -⟩
        cases ds with
        | nil => simp at hlen
        | cons d ds2 => simp at hcs
    | cons c cs2 =>
      simp only [takeNd]
      by_cases hnd : isNd c = true
      · rw [if_pos hnd, ih cs2 r]
        constructor
        · rintro ⟨ds, hcs, hlen, hall⟩
          exact ⟨c :: ds, by simp [hcs], by simp [hlen], by
            intro x hx
            rcases List.mem_cons.mp hx with h | h
            · rw [h]; exact hnd
            · exact hall x h⟩
        · rintro ⟨ds, hcs, hlen, hall⟩
          cases ds with
          | nil => simp at hlen
          | cons d ds2 =>
            simp only [List.cons_append, List.cons.injEq] at hcs
            refine ⟨ds2, hcs.2, by simpa using hlen, ?_⟩
            intro x hx
            exact hall x (List.mem_cons_of_mem d hx)
      · rw [if_neg hnd]
        constructor
        · intro h; cases h
        · rintro ⟨ds, hcs, hlen, hall⟩
          cases ds with
          | nil => simp at hlen
          | cons d ds2 =>
            simp only [List.cons_append, List.cons.injEq] at hcs
            exact absurd (hcs.1 ▸ hall d (List.mem_cons_self d ds2)) hnd

theorem dollarEnd_iff (r : List Char) :
    dollarEnd r = true ↔ r = [] ∨ r = ['\n'] := by
  match r with
  | [] => simp [dollarEnd]
  | [c] => simp [dollarEnd]
  | c1 :: c2 :: rest => simp [dollarEnd]

theorem phoneMatches_iff (s : String) : phoneMatches s = true ↔ phoneSpec s := by
  unfold phoneMatches phoneSpec
  cases h : takeNd 10 s.data with
  | none =>
    simp only [Bool.false_eq_true, false_iff]
    rintro ⟨ds, rest, hcs, hlen, hall, -⟩
    have : takeNd 10 s.data = some rest := (takeNd_iff 10 s.data rest).mpr ⟨ds, hcs, hlen, hall⟩
    rw [h] at this
    cases this
  | some rest =>
    rw [dollarEnd_iff]
    constructor
    · intro hend
      obtain ⟨ds, hcs, hlen, hall⟩ := (takeNd_iff 10 s.data rest).mp h
      exact ⟨ds, rest, hcs, hlen, hall, hend⟩
    · rintro ⟨ds, rest2, hcs, hlen, hall, hend⟩
      have : takeNd 10 s.data = some rest2 := (takeNd_iff 10 s.data rest2).mpr ⟨ds, hcs, hlen, hall⟩
      rw [h] at this
      cases this
      exact hend

/-- C6: corrected.  `Phone` accepts `raw` iff `raw` is ten Unicode
decimal digits (Python `\d`, category Nd) optionally followed by one
trailing newline — not only the ten ASCII digit strings the claim
describes — and on success the stored value is the raw string itself
(so it round-trips unchanged, trailing newline included). -/
theorem C6_parse_phone (raw : String) :
    (Phone.init raw = .ok ⟨raw⟩ ↔ phoneSpec raw) ∧
      ∀ p, Phone.init raw = .ok p → p = ⟨raw⟩ := by
  constructor
  · rw [← phoneMatches_iff]
    unfold Phone.init
    by_cases h : phoneMatches raw = true
    · simp [h]
    · simp [h]
  · intro p hp
    unfold Phone.init at hp
    by_cases h : phoneMatches raw = true
    · rw [if_pos h] at hp
      exact (Except.ok.inj hp).symm
    · rw [if_neg h] at hp
      cases hp

/-- C6: witness.  An accepted ten-ASCII-digit phone. -/
theorem C6_witness : Phone.init "0123456789" = .ok ⟨"0123456789"⟩ :=
  (C6_parse_phone "0123456789").1.mpr
    ⟨"0123456789".data, [], by decide, by decide, by decide, Or.inl rfl⟩

/-- C6: counterexample to the claim as stated.  The eleven-character
string "0123456789\n" (ten digits plus a trailing newline) is accepted
by `Phone`, though the claim says every input that is not exactly ten
digit characters fails. -/
theorem C6_counterexample :
    Phone.init "0123456789\n" = .ok ⟨"0123456789\n"⟩ ∧
      "0123456789\n".length = 11 := ⟨rfl, rfl⟩

theorem Phone_init_ok (n : String) (h : phoneMatches n = true) :
    Phone.init n = .ok ⟨n⟩ := by
  unfold Phone.init
  rw [if_pos h]

/-- C4: corrected.  After `edit_phone(old, new)` with `new` a valid
phone, `find_phone(new)` succeeds; `find_phone(old)` is NotFound
whenever `old ≠ new`, but when `old = new` the freshly added phone is
found again, contrary to the claim's parenthetical. -/
theorem C4_edit_phone (r : Record) (o n : String)
    (_hold : r.find_phone o ≠ none) (hnew : phoneMatches n = true) :
    ∃ r2, r.edit_phone o n = .ok r2 ∧
      r2.find_phone n = some ⟨n⟩ ∧
      (o ≠ n → r2.find_phone o = none) := by
  have hadd : r.edit_phone o n =
      .ok { r with phones := (r.phones.filter (fun p => p.value != o)) ++ [⟨n⟩] } := by
    unfold Record.edit_phone Record.add_phone
    rw [Phone_init_ok n hnew]
    rfl
  refine ⟨_, hadd, ?_, ?_⟩
  · show List.find? _ (List.filter _ r.phones ++ [Phone.mk n]) = some ⟨n⟩
    cases hf : List.find? (fun p => p.value == n) (List.filter (fun p => p.value != o) r.phones) with
    | some q =>
      have hq := List.find?_some hf
      simp only [beq_iff_eq] at hq
      have : q = ⟨n⟩ := by
        cases q
        simp only [Phone.mk.injEq]
        exact hq
      rw [List.find?_append, hf]
      simp [this]
    | none =>
      rw [List.find?_append, hf]
      simp [Record.find_phone, List.find?]
  · intro hne
    show List.find? _ (List.filter _ r.phones ++ [Phone.mk n]) = none
    rw [List.find?_eq_none]
    intro p hp
    rcases List.mem_append.mp hp with h | h
    · have := (List.mem_filter.mp h).2
      simpa using this
    · rw [List.mem_singleton.mp h]
      simp
      exact fun h2 => hne h2.symm

/-- C4: witness with distinct old and new values. -/
theorem C4_witness :
    Record.find_phone ⟨"Al", [⟨"1112223334"⟩], none⟩ "1112223334" ≠ none ∧
    phoneMatches "9998887776" = true ∧
    (Record.edit_phone ⟨"Al", [⟨"1112223334"⟩], none⟩ "1112223334" "9998887776").map
      (fun r2 => (r2.find_phone "9998887776", r2.find_phone "1112223334")) =
      .ok (some ⟨"9998887776"⟩, none) := by
  obtain ⟨r2, he, h1, h2⟩ :=
    C4_edit_phone ⟨"Al", [⟨"1112223334"⟩], none⟩ "1112223334" "9998887776"
      (fun h => Option.noConfusion h) rfl
  refine ⟨fun h => Option.noConfusion h, rfl, ?_⟩
  rw [he]
  simp only [Except.map]
  rw [h1, h2 (by decide)]

/-- C4: counterexample to the claim as stated.  With `old = new =
"0123456789"` on a record holding that phone, after `edit_phone` the
call `find_phone(old)` still succeeds, though the claim says it must be
NotFound also in the case `old = new`. -/
theorem C4_counterexample :
    phoneMatches "0123456789" = true ∧
    (Record.edit_phone ⟨"Al", [⟨"0123456789"⟩], none⟩ "0123456789" "0123456789").map
      (fun r2 => r2.find_phone "0123456789") = .ok (some ⟨"0123456789"⟩) :=
  ⟨rfl, rfl⟩

/-- C5: corrected.  A failed phone parse, and a failed parse of a
non-empty birthday string, abort `add_record` before `self.data` is
touched (the new mapping exists only in the `.ok` branch).  But the
empty string, though it fails birthday validation, is falsy in Python,
so `Record.__init__` skips validating it: `add_record(name, phone, "")`
succeeds and stores a record without a birthday, contrary to the
claim. -/
theorem C5_add_record_atomic (book : AddressBook) (name phone : String)
    (birthday : Option String)
    (h : phoneMatches phone = false ∨
         ∃ b, birthday = some b ∧ b ≠ "" ∧ strptime_dmY b = none) :
    isErr (book.add_record name phone birthday) = true := by
  rcases h with hp | ⟨b, hb, hne, hsp⟩
  · unfold AddressBook.add_record
    cases hinit : Record.init name birthday with
    | error e => rfl
    | ok r =>
      unfold Record.add_phone Phone.init
      rw [hp]
      simp only [Bool.false_eq_true, if_false]
      rfl
  · have hinit : Record.init name birthday =
        .error "Invalid birthday format. Use DD-MM-YYYY." := by
      rw [hb]
      simp only [Record.init, Birthday.init, hsp, if_neg hne]
    unfold AddressBook.add_record
    rw [hinit]
    rfl

/-- C5: witness with an invalid phone on an empty book. -/
theorem C5_witness :
    phoneMatches "12345" = false ∧
      isErr (AddressBook.add_record ⟨[]⟩ "a" "12345" none) = true :=
  ⟨rfl, C5_add_record_atomic ⟨[]⟩ "a" "12345" none (Or.inl rfl)⟩

/-- C5: counterexample to the claim as stated.  The empty birthday
string fails validation (`strptime` raises on it), yet `add_record`
succeeds and stores a record under the name. -/
theorem C5_counterexample :
    strptime_dmY "" = none ∧
    AddressBook.add_record ⟨[]⟩ "a" "0123456789" (some "") =
      .ok ⟨[("a", ⟨"a", [⟨"0123456789"⟩], none⟩)]⟩ :=
  ⟨rfl, rfl⟩

/-- C1: the year-end wraparound the claim (and the spec's stated goal)
requires does not happen.  On 30 December 2025 (a Tuesday) a birthday
of 2 January has its next occurrence three days away, inside the 7-day
window, but the scheduler anchors the birthday to the current year,
computes `delta_days = -362`, skips the record, and returns an empty
mapping. -/
theorem C1_year_wraparound_skipped :
    AddressBook.get_birthdays_per_week
        ⟨[("Alice", ⟨"Alice", [⟨"0123456789"⟩], some ⟨"02-01-1990"⟩⟩)]⟩
        2025 12 30 = .ok [] ∧
    toOrdinal 2026 1 2 - toOrdinal 2025 12 30 = 3 ∧
    todayName 2025 12 30 = "Tuesday" ∧
    schedDelta 2025 12 30 "02-01-1990" = .ok (-362) :=
  ⟨rfl, rfl, rfl, rfl⟩

theorem find?_update_self (name : String) (nr : Record) :
    ∀ d : List (String × Record), d.any (fun kv => kv.1 == name) = true →
      (d.map (fun kv => if kv.1 == name then (name, nr) else kv)).find?
        (fun kv => kv.1 == name) = some (name, nr) := by
  intro d
  induction d with
  | nil => intro h; simp at h
  | cons kv rest ih =>
    obtain ⟨k1, v1⟩ := kv
    intro h
    rw [List.map_cons]
    by_cases hk : k1 = name
    · rw [if_pos (show ((k1, v1).1 == name) = true by simpa using hk)]
      exact List.find?_cons_of_pos _ (by simp)
    · rw [if_neg (show ¬((k1, v1).1 == name) = true by simpa using hk)]
      rw [List.find?_cons_of_neg _ (by simpa using hk)]
      apply ih
      rw [List.any_cons] at h
      have hb : ((k1, v1).1 == name) = false := by simpa using hk
      simpa [hb] using h

theorem find?_update_other (name k : String) (nr : Record) (hk : k ≠ name) :
    ∀ d : List (String × Record),
      (d.map (fun kv => if kv.1 == name then (name, nr) else kv)).find?
        (fun kv => kv.1 == k) = d.find? (fun kv => kv.1 == k) := by
  have hnk : ¬name = k := fun h => hk h.symm
  intro d
  induction d with
  | nil => rfl
  | cons kv rest ih =>
    obtain ⟨k1, v1⟩ := kv
    rw [List.map_cons]
    by_cases hkn : k1 = name
    · rw [if_pos (show ((k1, v1).1 == name) = true by simpa using hkn)]
      rw [List.find?_cons_of_neg _ (by simpa using hnk)]
      rw [List.find?_cons_of_neg _ (by simp [hkn, hnk])]
      exact ih
    · rw [if_neg (show ¬((k1, v1).1 == name) = true by simpa using hkn)]
      by_cases hpk : k1 = k
      · rw [List.find?_cons_of_pos _ (by simpa using hpk),
          List.find?_cons_of_pos _ (by simpa using hpk)]
      · rw [List.find?_cons_of_neg _ (by simpa using hpk),
          List.find?_cons_of_neg _ (by simpa using hpk)]
        exact ih

theorem find_none_iff_any_false (book : AddressBook) (name : String) :
    book.find name = none ↔ book.data.any (fun kv => kv.1 == name) = false := by
  unfold AddressBook.find
  rw [Option.map_eq_none', List.find?_eq_none, List.any_eq_false]

/-- C8: confirmed.  `update_record` raises KeyError and leaves the
mapping as it was when the name is absent (no new mapping is produced),
and when the name is present it replaces that entry and leaves every
other name's record unchanged. -/
theorem C8_update_record (book : AddressBook) (name : String) (nr : Record) :
    (book.find name = none →
        book.update_record name nr = .error ("Contact not found: " ++ name)) ∧
    (book.find name ≠ none →
        ∃ b2, book.update_record name nr = .ok b2 ∧
          b2.find name = some nr ∧
          ∀ k, k ≠ name → b2.find k = book.find k) := by
  constructor
  · intro h
    have hany := (find_none_iff_any_false book name).mp h
    unfold AddressBook.update_record
    rw [hany]
    rfl
  · intro h
    have hany : book.data.any (fun kv => kv.1 == name) = true := by
      cases hq : book.data.any (fun kv => kv.1 == name) with
      | true => rfl
      | false => exact absurd ((find_none_iff_any_false book name).mpr hq) h
    refine ⟨⟨book.data.map (fun kv => if kv.1 == name then (name, nr) else kv)⟩, ?_, ?_, ?_⟩
    · unfold AddressBook.update_record
      rw [hany]
      rfl
    · unfold AddressBook.find
      rw [find?_update_self name nr book.data hany]
      rfl
    · intro k hkk
      unfold AddressBook.find
      rw [find?_update_other name k nr hkk book.data]

/-- C8: witness on a one-entry book. -/
theorem C8_witness :
    AddressBook.find ⟨[("x", ⟨"x", [], none⟩)]⟩ "x" ≠ none ∧
    (AddressBook.update_record ⟨[("x", ⟨"x", [], none⟩)]⟩ "x"
        ⟨"x", [⟨"1234567890"⟩], none⟩).map
      (fun b2 => b2.find "x") = .ok (some ⟨"x", [⟨"1234567890"⟩], none⟩) := by
  obtain ⟨b2, he, h1, -⟩ :=
    (C8_update_record ⟨[("x", ⟨"x", [], none⟩)]⟩ "x" ⟨"x", [⟨"1234567890"⟩], none⟩).2
      (fun h => Option.noConfusion h)
  exact ⟨fun h => Option.noConfusion h, by rw [he]; simp only [Except.map]; rw [h1]⟩

theorem lookupBucket_nil (day : String) : lookupBucket [] day = [] := rfl

theorem lookupBucket_cons (d : String) (ns : List String)
    (rest : List (String × List String)) (day : String) :
    lookupBucket ((d, ns) :: rest) day =
      if d = day then ns else lookupBucket rest day := by
  by_cases h : d = day
  · unfold lookupBucket
    rw [List.find?_cons_of_pos _ (by simpa using h), if_pos h]
    rfl
  · unfold lookupBucket
    rw [List.find?_cons_of_neg _ (by simpa using h), if_neg h]

theorem mem_lookupBucket_bucketsAppend_self (name day : String) :
    ∀ acc, name ∈ lookupBucket (bucketsAppend acc day name) day := by
  intro acc
  induction acc with
  | nil =>
    rw [show bucketsAppend [] day name = [(day, [name])] from rfl, lookupBucket_cons]
    simp
  | cons kv rest ih =>
    obtain ⟨d, ns⟩ := kv
    by_cases hd : d = day
    · rw [show bucketsAppend ((d, ns) :: rest) day name
          = (d, ns ++ [name]) :: rest from by simp [bucketsAppend, hd]]
      rw [lookupBucket_cons, if_pos hd]
      simp
    · rw [show bucketsAppend ((d, ns) :: rest) day name
          = (d, ns) :: bucketsAppend rest day name from by simp [bucketsAppend, hd]]
      rw [lookupBucket_cons, if_neg hd]
      exact ih

theorem mem_lookupBucket_bucketsAppend_mono (x day day2 n : String) :
    ∀ acc, x ∈ lookupBucket acc day →
      x ∈ lookupBucket (bucketsAppend acc day2 n) day := by
  intro acc
  induction acc with
  | nil => intro h; rw [lookupBucket_nil] at h; cases h
  | cons kv rest ih =>
    obtain ⟨d, ns⟩ := kv
    intro h
    rw [lookupBucket_cons] at h
    by_cases hd2 : d = day2
    · rw [show bucketsAppend ((d, ns) :: rest) day2 n
          = (d, ns ++ [n]) :: rest from by simp [bucketsAppend, hd2]]
      rw [lookupBucket_cons]
      by_cases hdd : d = day
      · rw [if_pos hdd]
        rw [if_pos hdd] at h
        exact List.mem_append_left _ h
      · rw [if_neg hdd]
        rw [if_neg hdd] at h
        exact h
    · rw [show bucketsAppend ((d, ns) :: rest) day2 n
          = (d, ns) :: bucketsAppend rest day2 n from by simp [bucketsAppend, hd2]]
      rw [lookupBucket_cons]
      by_cases hdd : d = day
      · rw [if_pos hdd]
        rw [if_pos hdd] at h
        exact h
      · rw [if_neg hdd]
        rw [if_neg hdd] at h
        exact ih h

theorem notmem_lookupBucket_bucketsAppend (x day day2 n : String) (hxn : x ≠ n) :
    ∀ acc, x ∉ lookupBucket acc day →
      x ∉ lookupBucket (bucketsAppend acc day2 n) day := by
  intro acc
  induction acc with
  | nil =>
    intro _
    rw [show bucketsAppend [] day2 n = [(day2, [n])] from rfl, lookupBucket_cons]
    by_cases hdd : day2 = day
    · rw [if_pos hdd]
      simpa using hxn
    · rw [if_neg hdd]
      rw [lookupBucket_nil]
      simp
  | cons kv rest ih =>
    obtain ⟨d, ns⟩ := kv
    intro h
    rw [lookupBucket_cons] at h
    by_cases hd2 : d = day2
    · rw [show bucketsAppend ((d, ns) :: rest) day2 n
          = (d, ns ++ [n]) :: rest from by simp [bucketsAppend, hd2]]
      rw [lookupBucket_cons]
      by_cases hdd : d = day
      · rw [if_pos hdd]
        rw [if_pos hdd] at h
        intro hmem
        rcases List.mem_append.mp hmem with h1 | h1
        · exact h h1
        · exact hxn (List.mem_singleton.mp h1)
      · rw [if_neg hdd]
        rw [if_neg hdd] at h
        exact h
    · rw [show bucketsAppend ((d, ns) :: rest) day2 n
          = (d, ns) :: bucketsAppend rest day2 n from by simp [bucketsAppend, hd2]]
      rw [lookupBucket_cons]
      by_cases hdd : d = day
      · rw [if_pos hdd]
        rw [if_pos hdd] at h
        exact h
      · rw [if_neg hdd]
        rw [if_neg hdd] at h
        exact ih h


theorem schedGo_cons_none (ty tm td : Nat) (n1 : String) (r1 : Record)
    (rest : List (String × Record)) (acc : List (String × List String))
    (hb : r1.birthday = none) :
    schedGo ty tm td ((n1, r1) :: rest) acc = schedGo ty tm td rest acc := by
  simp only [schedGo, hb]

theorem schedGo_cons_error (ty tm td : Nat) (n1 : String) (r1 : Record)
    (rest : List (String × Record)) (acc : List (String × List String))
    (b : Birthday) (e : String)
    (hb : r1.birthday = some b) (hp : processRecord ty tm td b.value = .error e) :
    schedGo ty tm td ((n1, r1) :: rest) acc = .error e := by
  simp only [schedGo, hb, hp]

theorem schedGo_cons_skip (ty tm td : Nat) (n1 : String) (r1 : Record)
    (rest : List (String × Record)) (acc : List (String × List String))
    (b : Birthday)
    (hb : r1.birthday = some b) (hp : processRecord ty tm td b.value = .ok none) :
    schedGo ty tm td ((n1, r1) :: rest) acc = schedGo ty tm td rest acc := by
  simp only [schedGo, hb, hp]

theorem schedGo_cons_append (ty tm td : Nat) (n1 : String) (r1 : Record)
    (rest : List (String × Record)) (acc : List (String × List String))
    (b : Birthday) (day : String)
    (hb : r1.birthday = some b)
    (hp : processRecord ty tm td b.value = .ok (some day)) :
    schedGo ty tm td ((n1, r1) :: rest) acc =
      schedGo ty tm td rest (bucketsAppend acc day n1) := by
  simp only [schedGo, hb, hp]

theorem schedGo_mono (ty tm td : Nat) (x day : String) :
    ∀ (data : List (String × Record)) (acc m : List (String × List String)),
      schedGo ty tm td data acc = .ok m →
      x ∈ lookupBucket acc day → x ∈ lookupBucket m day := by
  intro data
  induction data with
  | nil =>
    intro acc m h hx
    cases h
    exact hx
  | cons kv rest ih =>
    obtain ⟨n1, r1⟩ := kv
    intro acc m h hx
    cases hb : r1.birthday with
    | none =>
      rw [schedGo_cons_none ty tm td n1 r1 rest acc hb] at h
      exact ih acc m h hx
    | some b =>
      cases hp : processRecord ty tm td b.value with
      | error e =>
        rw [schedGo_cons_error ty tm td n1 r1 rest acc b e hb hp] at h
        cases h
      | ok o =>
        cases o with
        | none =>
          rw [schedGo_cons_skip ty tm td n1 r1 rest acc b hb hp] at h
          exact ih acc m h hx
        | some day2 =>
          rw [schedGo_cons_append ty tm td n1 r1 rest acc b day2 hb hp] at h
          exact ih _ m h (mem_lookupBucket_bucketsAppend_mono x day day2 n1 acc hx)

theorem schedGo_mem (ty tm td : Nat) (x day : String) (rec : Record) (b : Birthday)
    (hb : rec.birthday = some b)
    (hp : processRecord ty tm td b.value = .ok (some day)) :
    ∀ (data : List (String × Record)) (acc m : List (String × List String)),
      schedGo ty tm td data acc = .ok m →
      (x, rec) ∈ data →
      x ∈ lookupBucket m day := by
  intro data
  induction data with
  | nil =>
    intro acc m _ hmem
    cases hmem
  | cons kv rest ih =>
    intro acc m h hmem
    rcases List.mem_cons.mp hmem with heq | hmem2
    · rw [← heq] at h
      rw [schedGo_cons_append ty tm td x rec rest acc b day hb hp] at h
      exact schedGo_mono ty tm td x day rest _ m h
        (mem_lookupBucket_bucketsAppend_self x day acc)
    · obtain ⟨n1, r1⟩ := kv
      cases hb1 : r1.birthday with
      | none =>
        rw [schedGo_cons_none ty tm td n1 r1 rest acc hb1] at h
        exact ih acc m h hmem2
      | some b1 =>
        cases hp1 : processRecord ty tm td b1.value with
        | error e =>
          rw [schedGo_cons_error ty tm td n1 r1 rest acc b1 e hb1 hp1] at h
          cases h
        | ok o =>
          cases o with
          | none =>
            rw [schedGo_cons_skip ty tm td n1 r1 rest acc b1 hb1 hp1] at h
            exact ih acc m h hmem2
          | some day2 =>
            rw [schedGo_cons_append ty tm td n1 r1 rest acc b1 day2 hb1 hp1] at h
            exact ih _ m h hmem2

theorem schedGo_notmem (ty tm td : Nat) (x day : String) :
    ∀ (data : List (String × Record)) (acc m : List (String × List String)),
      schedGo ty tm td data acc = .ok m →
      (∀ n r b w, (n, r) ∈ data → n = x → r.birthday = some b →
        processRecord ty tm td b.value ≠ .ok (some w)) →
      x ∉ lookupBucket acc day → x ∉ lookupBucket m day := by
  intro data
  induction data with
  | nil =>
    intro acc m h _ hacc
    cases h
    exact hacc
  | cons kv rest ih =>
    obtain ⟨n1, r1⟩ := kv
    intro acc m h hnone hacc
    have hrest : ∀ n r b w, (n, r) ∈ rest → n = x → r.birthday = some b →
        processRecord ty tm td b.value ≠ .ok (some w) :=
      fun n r b w hm => hnone n r b w (List.mem_cons_of_mem _ hm)
    cases hb : r1.birthday with
    | none =>
      rw [schedGo_cons_none ty tm td n1 r1 rest acc hb] at h
      exact ih acc m h hrest hacc
    | some b =>
      cases hp : processRecord ty tm td b.value with
      | error e =>
        rw [schedGo_cons_error ty tm td n1 r1 rest acc b e hb hp] at h
        cases h
      | ok o =>
        cases o with
        | none =>
          rw [schedGo_cons_skip ty tm td n1 r1 rest acc b hb hp] at h
          exact ih acc m h hrest hacc
        | some day2 =>
          rw [schedGo_cons_append ty tm td n1 r1 rest acc b day2 hb hp] at h
          have hx1 : x ≠ n1 := by
            intro hxeq
            exact hnone n1 r1 b day2 (List.mem_cons_self _ _) hxeq.symm hb hp
          exact ih _ m h hrest
            (notmem_lookupBucket_bucketsAppend x day day2 n1 hx1 acc hacc)

theorem keys_nodup_eq (x : String) (r1 r2 : Record) :
    ∀ d : List (String × Record), (d.map Prod.fst).Nodup →
      (x, r1) ∈ d → (x, r2) ∈ d → r1 = r2 := by
  intro d
  induction d with
  | nil => intro _ h; cases h
  | cons kv rest ih =>
    intro hnd h1 h2
    rw [List.map_cons, List.nodup_cons] at hnd
    rcases List.mem_cons.mp h1 with e1 | m1 <;> rcases List.mem_cons.mp h2 with e2 | m2
    · injection e1.trans e2.symm with h1 h2
    · exfalso
      apply hnd.1
      rw [← e1]
      exact List.mem_map.mpr ⟨(x, r2), m2, rfl⟩
    · exfalso
      apply hnd.1
      rw [← e2]
      exact List.mem_map.mpr ⟨(x, r1), m1, rfl⟩
    · exact ih hnd.2 m1 m2

theorem schedGo_error_mem (ty tm td : Nat) (x : String) (rec : Record) (b : Birthday)
    (hb : rec.birthday = some b)
    (hp : isErr (processRecord ty tm td b.value) = true) :
    ∀ (data : List (String × Record)) (acc : List (String × List String)),
      (x, rec) ∈ data →
      isErr (schedGo ty tm td data acc) = true := by
  intro data
  induction data with
  | nil => intro acc h; cases h
  | cons kv rest ih =>
    intro acc hmem
    rcases List.mem_cons.mp hmem with heq | hmem2
    · rw [← heq]
      cases hpr : processRecord ty tm td b.value with
      | error e =>
        rw [schedGo_cons_error ty tm td x rec rest acc b e hb hpr]
        rfl
      | ok o =>
        rw [hpr] at hp
        cases hp
    · obtain ⟨n1, r1⟩ := kv
      cases hb1 : r1.birthday with
      | none =>
        rw [schedGo_cons_none ty tm td n1 r1 rest acc hb1]
        exact ih acc hmem2
      | some b1 =>
        cases hp1 : processRecord ty tm td b1.value with
        | error e =>
          rw [schedGo_cons_error ty tm td n1 r1 rest acc b1 e hb1 hp1]
          rfl
        | ok o =>
          cases o with
          | none =>
            rw [schedGo_cons_skip ty tm td n1 r1 rest acc b1 hb1 hp1]
            exact ih acc hmem2
          | some day2 =>
            rw [schedGo_cons_append ty tm td n1 r1 rest acc b1 day2 hb1 hp1]
            exact ih _ hmem2

/-- C2: confirmed.  When today is not Monday, Saturday or Sunday, a
record whose `delta_days` lands in `[0, 7)` and whose raw celebration
weekday is Saturday or Sunday is reported under Monday. -/
theorem C2_weekend_shift_to_monday (book : AddressBook) (ty tm td : Nat)
    (name : String) (rec : Record) (b : Birthday) (delta : Int)
    (m : List (String × List String))
    (hrun : book.get_birthdays_per_week ty tm td = .ok m)
    (hmem : (name, rec) ∈ book.data) (hb : rec.birthday = some b)
    (hdelta : schedDelta ty tm td b.value = .ok delta)
    (h0 : 0 ≤ delta) (h7 : delta < 7)
    (htoday : notMonSatSun (todayName ty tm td) = true)
    (hraw : dayName (toOrdinal ty tm td + delta) = "Saturday" ∨
            dayName (toOrdinal ty tm td + delta) = "Sunday") :
    name ∈ lookupBucket m "Monday" := by
  have hp : processRecord ty tm td b.value = .ok (some "Monday") := by
    have hwin : -2 ≤ delta ∧ delta < 7 := ⟨by omega, h7⟩
    simp only [processRecord, hdelta]
    rw [if_pos hwin]
    simp only [celebrationDay]
    rw [if_pos ⟨h0, h7, htoday⟩]
    rcases hraw with h | h <;> rw [h] <;> rfl
  exact schedGo_mem ty tm td name "Monday" rec b hb hp book.data [] m hrun hmem

/-- C2: witness, the spec's own scenario: Wednesday 8 October 2025,
birthday on Saturday 11 October. -/
theorem C2_witness :
    schedDelta 2025 10 8 "11-10-1990" = .ok 3 ∧
    notMonSatSun (todayName 2025 10 8) = true ∧
    dayName (toOrdinal 2025 10 8 + 3) = "Saturday" ∧
    "Bob" ∈ lookupBucket [("Monday", ["Bob"])] "Monday" :=
  ⟨rfl, rfl, rfl,
    C2_weekend_shift_to_monday ⟨[("Bob", ⟨"Bob", [], some ⟨"11-10-1990"⟩⟩)]⟩ 2025 10 8
      "Bob" ⟨"Bob", [], some ⟨"11-10-1990"⟩⟩ ⟨"11-10-1990"⟩ 3 [("Monday", ["Bob"])]
      rfl (List.mem_singleton.mpr rfl) rfl rfl (by omega) (by omega) rfl (Or.inl rfl)⟩

/-- C3: confirmed.  A record whose computed `delta_days` falls outside
`[-2, 7)` is skipped (`continue`) and its name reaches no weekday
bucket of the returned mapping; the key-uniqueness of the Python dict
is the `Nodup` hypothesis. -/
theorem C3_outside_window_skipped (book : AddressBook) (ty tm td : Nat)
    (name : String) (rec : Record) (b : Birthday) (delta : Int)
    (m : List (String × List String)) (day : String)
    (hnd : (book.data.map Prod.fst).Nodup)
    (hrun : book.get_birthdays_per_week ty tm td = .ok m)
    (hmem : (name, rec) ∈ book.data) (hb : rec.birthday = some b)
    (hdelta : schedDelta ty tm td b.value = .ok delta)
    (hout : ¬(-2 ≤ delta ∧ delta < 7)) :
    processRecord ty tm td b.value = .ok none ∧ name ∉ lookupBucket m day := by
  have hp : processRecord ty tm td b.value = .ok none := by
    simp only [processRecord, hdelta]
    rw [if_neg hout]
  refine ⟨hp, ?_⟩
  refine schedGo_notmem ty tm td name day book.data [] m hrun ?_ ?_
  · intro n r b2 w hmemn hn hb2 hpr
    rw [hn] at hmemn
    have hreq : r = rec := keys_nodup_eq name r rec book.data hnd hmemn hmem
    rw [hreq] at hb2
    have hbb := hb.symm.trans hb2
    injection hbb with hbb2
    rw [← hbb2] at hpr
    rw [hp] at hpr
    simp at hpr
  · rw [lookupBucket_nil]
    simp

/-- C3: witness, the spec's own scenario: a birthday ten days out
(18 October seen from Wednesday 8 October 2025) lands in no bucket. -/
theorem C3_witness :
    schedDelta 2025 10 8 "18-10-1990" = .ok 10 ∧
    AddressBook.get_birthdays_per_week
      ⟨[("Carol", ⟨"Carol", [], some ⟨"18-10-1990"⟩⟩)]⟩ 2025 10 8 = .ok [] ∧
    processRecord 2025 10 8 "18-10-1990" = .ok none ∧
    "Carol" ∉ lookupBucket [] "Saturday" := by
  obtain ⟨h1, h2⟩ := C3_outside_window_skipped
    ⟨[("Carol", ⟨"Carol", [], some ⟨"18-10-1990"⟩⟩)]⟩ 2025 10 8
    "Carol" ⟨"Carol", [], some ⟨"18-10-1990"⟩⟩ ⟨"18-10-1990"⟩ 10 [] "Saturday"
    (by simp) rfl (List.mem_singleton.mpr rfl) rfl rfl (by omega)
  exact ⟨rfl, rfl, h1, h2⟩

theorem processRecord_feb29 (ty tm td : Nat) (v : String) (y : Nat)
    (hparse : strptime_dmY v = some (29, 2, y)) (hleap : isLeap ty = false) :
    processRecord ty tm td v = .error "day is out of range for month" := by
  have hmon : daysInMonth ty 2 = 28 := by simp [daysInMonth, hleap]
  have hval : isValidDate ty 2 29 = false := by
    simp [isValidDate, hmon]
  have hrep : dateReplaceYear ty 2 29 = none := by
    simp [dateReplaceYear, hval]
  have hsd : schedDelta ty tm td v = .error "day is out of range for month" := by
    simp only [schedDelta, hparse, hrep]
  unfold processRecord
  rw [hsd]

/-- C9: confirmed.  A stored 29 February birthday makes
`birthday.replace(year=today.year)` raise ValueError inside the
scheduler whenever today's year is not a leap year, so the whole
`get_birthdays_per_week` call raises instead of skipping or reporting
the contact. -/
theorem C9_feb29_unhandled (book : AddressBook) (ty tm td : Nat)
    (name : String) (rec : Record) (b : Birthday) (y : Nat)
    (hmem : (name, rec) ∈ book.data) (hb : rec.birthday = some b)
    (hparse : strptime_dmY b.value = some (29, 2, y))
    (hleap : isLeap ty = false) :
    isErr (book.get_birthdays_per_week ty tm td) = true := by
  have hp : isErr (processRecord ty tm td b.value) = true := by
    rw [processRecord_feb29 ty tm td b.value y hparse hleap]
    rfl
  exact schedGo_error_mem ty tm td name rec b hb hp book.data [] hmem

/-- C9: witness: a 29-02-2000 birthday and today 1 March 2025. -/
theorem C9_witness :
    strptime_dmY "29-02-2000" = some (29, 2, 2000) ∧
    isLeap 2025 = false ∧
    isErr (AddressBook.get_birthdays_per_week
      ⟨[("Eve", ⟨"Eve", [], some ⟨"29-02-2000"⟩⟩)]⟩ 2025 3 1) = true :=
  ⟨rfl, rfl,
    C9_feb29_unhandled ⟨[("Eve", ⟨"Eve", [], some ⟨"29-02-2000"⟩⟩)]⟩ 2025 3 1
      "Eve" ⟨"Eve", [], some ⟨"29-02-2000"⟩⟩ ⟨"29-02-2000"⟩ 2000
      (List.mem_singleton.mpr rfl) rfl rfl rfl⟩


theorem RecordOK_add_phone (r r2 : Record) (p : String)
    (hok : RecordOK r) (h : r.add_phone p = .ok r2) : RecordOK r2 := by
  by_cases hm : phoneMatches p = true
  · rw [show r.add_phone p = .ok { r with phones := r.phones ++ [⟨p⟩] } from by
      unfold Record.add_phone
      rw [Phone_init_ok p hm]] at h
    injection h with h2
    rw [← h2]
    intro x hx
    rcases List.mem_append.mp hx with hx1 | hx1
    · exact hok x hx1
    · rw [List.mem_singleton.mp hx1]
      exact hm
  · exfalso
    simp only [Record.add_phone, Phone.init, if_neg hm] at h
    exact Except.noConfusion h

theorem RecordOK_remove (r : Record) (p : String) (hok : RecordOK r) :
    RecordOK (r.remove_phone p) := by
  intro x hx
  exact hok x (List.mem_of_mem_filter hx)

theorem RecordOK_applyOp (r : Record) (op : ROp) (hok : RecordOK r) :
    RecordOK (r.applyOp op) := by
  cases op with
  | addPhone p =>
    show RecordOK (match r.add_phone p with | .ok r2 => r2 | .error _ => r)
    cases h : r.add_phone p with
    | ok r2 => exact RecordOK_add_phone r r2 p hok h
    | error e => exact hok
  | removePhone p => exact RecordOK_remove r p hok
  | editPhone o n =>
    show RecordOK (match (r.remove_phone o).add_phone n with
      | .ok r2 => r2 | .error _ => r.remove_phone o)
    cases h : (r.remove_phone o).add_phone n with
    | ok r2 => exact RecordOK_add_phone _ r2 n (RecordOK_remove r o hok) h
    | error e => exact RecordOK_remove r o hok

theorem RecordOK_foldl (ops : List ROp) :
    ∀ r, RecordOK r → RecordOK (ops.foldl Record.applyOp r) := by
  induction ops with
  | nil => intro r h; exact h
  | cons op rest ih => intro r h; exact ih _ (RecordOK_applyOp r op h)

theorem RecordOK_init (name : String) (birthday : Option String) (r : Record)
    (h : Record.init name birthday = .ok r) : RecordOK r := by
  have hph : r.phones = [] := by
    cases birthday with
    | none =>
      injection h with h2
      rw [← h2]
    | some b =>
      by_cases hb : b = ""
      · rw [show Record.init name (some b) = .ok ⟨name, [], none⟩ from by
          simp only [Record.init, if_pos hb]] at h
        injection h with h2
        rw [← h2]
      · cases hbi : Birthday.init b with
        | ok bd =>
          rw [show Record.init name (some b) = .ok ⟨name, [], some bd⟩ from by
            simp only [Record.init, if_neg hb, hbi]] at h
          injection h with h2
          rw [← h2]
        | error e =>
          rw [show Record.init name (some b) = .error e from by
            simp only [Record.init, if_neg hb, hbi]] at h
          exact Except.noConfusion h
  intro x hx
  rw [hph] at hx
  cases hx

theorem RecordOK_buildRecord (name : String) (birthday : Option String)
    (ops : List ROp) (r : Record)
    (h : buildRecord name birthday ops = some r) : RecordOK r := by
  cases hi : Record.init name birthday with
  | ok r0 =>
    simp only [buildRecord, hi] at h
    injection h with h2
    rw [← h2]
    exact RecordOK_foldl ops r0 (RecordOK_init name birthday r0 hi)
  | error e =>
    simp only [buildRecord, hi] at h
    exact Option.noConfusion h

theorem BookOK_dictSet (d : List (String × Record)) (k : String) (v : Record)
    (hd : ∀ kv ∈ d, RecordOK kv.2) (hv : RecordOK v) :
    ∀ kv ∈ dictSet d k v, RecordOK kv.2 := by
  intro kv hkv
  unfold dictSet at hkv
  by_cases hany : d.any (fun kv => kv.1 == k) = true
  · rw [if_pos hany] at hkv
    obtain ⟨kv0, hkv0, heq⟩ := List.mem_map.mp hkv
    by_cases h0 : (kv0.1 == k) = true
    · rw [if_pos h0] at heq
      rw [← heq]
      exact hv
    · rw [if_neg h0] at heq
      rw [← heq]
      exact hd kv0 hkv0
  · rw [if_neg hany] at hkv
    rcases List.mem_append.mp hkv with h1 | h1
    · exact hd kv h1
    · rw [List.mem_singleton.mp h1]
      exact hv

theorem BookOK_add_record (book b2 : AddressBook) (name phone : String)
    (birthday : Option String)
    (hok : BookOK book) (h : book.add_record name phone birthday = .ok b2) :
    BookOK b2 := by
  cases hi : Record.init name birthday with
  | error e =>
    simp only [AddressBook.add_record, hi] at h
    exact Except.noConfusion h
  | ok r =>
    cases ha : r.add_phone phone with
    | error e =>
      simp only [AddressBook.add_record, hi, ha] at h
      exact Except.noConfusion h
    | ok r2 =>
      simp only [AddressBook.add_record, hi, ha] at h
      injection h with h2
      rw [← h2]
      intro kv hkv
      exact BookOK_dictSet book.data name r2 hok
        (RecordOK_add_phone r r2 phone (RecordOK_init name birthday r hi) ha) kv hkv

theorem BookOK_update (book b2 : AddressBook) (name : String) (nr : Record)
    (hok : BookOK book) (hnr : RecordOK nr)
    (h : book.update_record name nr = .ok b2) : BookOK b2 := by
  unfold AddressBook.update_record at h
  by_cases hany : book.data.any (fun kv => kv.1 == name) = true
  · rw [if_pos hany] at h
    injection h with h2
    rw [← h2]
    intro kv hkv
    obtain ⟨kv0, hkv0, heq⟩ := List.mem_map.mp hkv
    by_cases h0 : (kv0.1 == name) = true
    · rw [if_pos h0] at heq
      rw [← heq]
      exact hnr
    · rw [if_neg h0] at heq
      rw [← heq]
      exact hok kv0 hkv0
  · rw [if_neg hany] at h
    exact Except.noConfusion h

theorem BookOK_applyBOp (book : AddressBook) (op : BOp) (hok : BookOK book) :
    BookOK (book.applyBOp op) := by
  cases op with
  | addRecord name phone birthday =>
    show BookOK (match book.add_record name phone birthday with
      | .ok b2 => b2 | .error _ => book)
    cases h : book.add_record name phone birthday with
    | ok b2 => exact BookOK_add_record book b2 name phone birthday hok h
    | error e => exact hok
  | updateRecord target name birthday ops =>
    show BookOK (match buildRecord name birthday ops with
      | some nr =>
        (match book.update_record target nr with
         | .ok b2 => b2 | .error _ => book)
      | none => book)
    cases hbr : buildRecord name birthday ops with
    | some nr =>
      show BookOK (match book.update_record target nr with
        | .ok b2 => b2 | .error _ => book)
      cases hu : book.update_record target nr with
      | ok b2 =>
        exact BookOK_update book b2 target nr hok
          (RecordOK_buildRecord name birthday ops nr hbr) hu
      | error e => exact hok
    | none => exact hok
  | recOp name op2 =>
    intro kv hkv
    simp only [AddressBook.applyBOp] at hkv
    obtain ⟨kv0, hkv0, heq⟩ := List.mem_map.mp hkv
    by_cases h0 : (kv0.1 == name) = true
    · rw [if_pos h0] at heq
      rw [← heq]
      exact RecordOK_applyOp kv0.2 op2 (hok kv0 hkv0)
    · rw [if_neg h0] at heq
      rw [← heq]
      exact hok kv0 hkv0
  | delete name =>
    intro kv hkv
    simp only [AddressBook.applyBOp, AddressBook.delete] at hkv
    exact hok kv (List.mem_of_mem_filter hkv)

theorem BookOK_foldl (ops : List BOp) :
    ∀ book, BookOK book → BookOK (ops.foldl AddressBook.applyBOp book) := by
  induction ops with
  | nil => intro b h; exact h
  | cons op rest ih => intro b h; exact ih _ (BookOK_applyBOp b op h)

/-- C10: confirmed.  In every book reachable from the empty state by the
public operations, every stored phone passed the regex validation:
phones enter records only through `Phone.__init__`. -/
theorem C10_phone_validation_invariant (ops : List BOp) :
    BookOK (AddressBook.runOps ops) := by
  apply BookOK_foldl
  intro kv hkv
  cases hkv

/-- C10: witness on a short command sequence (one add, then a failed
phone addition on the found record). -/
theorem C10_witness :
    BookOK (AddressBook.runOps
      [.addRecord "a" "0123456789" none, .recOp "a" (.addPhone "123")]) :=
  C10_phone_validation_invariant
    [.addRecord "a" "0123456789" none, .recOp "a" (.addPhone "123")]

theorem ndVal_dash : ndVal '-' = none := by decide

theorem dashTok_cons (cs r : List Char) (h : dashTok cs = some r) : cs = '-' :: r := by
  match cs with
  | [] => exact Option.noConfusion h
  | c :: rest =>
    simp only [dashTok] at h
    by_cases hc : c = '-'
    · rw [if_pos hc] at h
      injection h with h2
      rw [hc, h2]
    · rw [if_neg hc] at h
      exact Option.noConfusion h

theorem dashTok_dash (r : List Char) : dashTok ('-' :: r) = some r := by
  simp [dashTok]

theorem day2Tok_shape (cs : List Char) (v : Nat) (r : List Char)
    (h : day2Tok cs = some (v, r)) :
    ∃ c1 c2, cs = c1 :: c2 :: r ∧ dayShape [c1, c2] v := by
  match cs with
  | [] => exact Option.noConfusion h
  | [c] => exact Option.noConfusion h
  | c1 :: c2 :: rest =>
    simp only [day2Tok] at h
    by_cases h3 : c1 = '3'
    · rw [if_pos h3] at h
      by_cases h01 : c2 = '0' ∨ c2 = '1'
      · rw [if_pos h01] at h
        simp only [Option.some.injEq, Prod.mk.injEq] at h
        obtain ⟨hv, hr⟩ := h
        exact ⟨c1, c2, by rw [hr], Or.inl ⟨h3, h01, hv.symm⟩⟩
      · rw [if_neg h01] at h
        exact Option.noConfusion h
    · rw [if_neg h3] at h
      by_cases h12 : c1 = '1' ∨ c1 = '2'
      · rw [if_pos h12] at h
        cases hw : ndVal c2 with
        | none => rw [hw] at h; exact Option.noConfusion h
        | some w =>
          rw [hw] at h
          simp only [Option.some.injEq, Prod.mk.injEq] at h
          obtain ⟨hv, hr⟩ := h
          exact ⟨c1, c2, by rw [hr],
            Or.inr (Or.inl ⟨h12, w, hw, hv.symm⟩)⟩
      · rw [if_neg h12] at h
        by_cases h0 : c1 = '0'
        · rw [if_pos h0] at h
          by_cases hA : isA19 c2 = true
          · rw [if_pos hA] at h
            simp only [Option.some.injEq, Prod.mk.injEq] at h
            obtain ⟨hv, hr⟩ := h
            exact ⟨c1, c2, by rw [hr], Or.inr (Or.inr (Or.inl ⟨h0, hA, hv.symm⟩))⟩
          · rw [if_neg hA] at h
            exact Option.noConfusion h
        · rw [if_neg h0] at h
          exact Option.noConfusion h

theorem day1Tok_shape (cs : List Char) (v : Nat) (r : List Char)
    (h : day1Tok cs = some (v, r)) :
    ∃ c, cs = c :: r ∧ dayShape [c] v := by
  match cs with
  | [] => exact Option.noConfusion h
  | c :: rest =>
    simp only [day1Tok] at h
    by_cases hA : isA19 c = true
    · rw [if_pos hA] at h
      simp only [Option.some.injEq, Prod.mk.injEq] at h
      obtain ⟨hv, hr⟩ := h
      exact ⟨c, by rw [hr], hA, hv.symm⟩
    · rw [if_neg hA] at h
      exact Option.noConfusion h

theorem daySpTok_shape (cs : List Char) (v : Nat) (r : List Char)
    (h : daySpTok cs = some (v, r)) :
    ∃ c1 c2, cs = c1 :: c2 :: r ∧ dayShape [c1, c2] v := by
  match cs with
  | [] => exact Option.noConfusion h
  | [c] => exact Option.noConfusion h
  | c1 :: c2 :: rest =>
    simp only [daySpTok] at h
    by_cases hsp : c1 = ' '
    · rw [if_pos hsp] at h
      by_cases hA : isA19 c2 = true
      · rw [if_pos hA] at h
        simp only [Option.some.injEq, Prod.mk.injEq] at h
        obtain ⟨hv, hr⟩ := h
        exact ⟨c1, c2, by rw [hr],
          Or.inr (Or.inr (Or.inr ⟨hsp, hA, hv.symm⟩))⟩
      · rw [if_neg hA] at h
        exact Option.noConfusion h
    · rw [if_neg hsp] at h
      exact Option.noConfusion h

theorem mon2Tok_shape (cs : List Char) (v : Nat) (r : List Char)
    (h : mon2Tok cs = some (v, r)) :
    ∃ c1 c2, cs = c1 :: c2 :: r ∧ monShape [c1, c2] v := by
  match cs with
  | [] => exact Option.noConfusion h
  | [c] => exact Option.noConfusion h
  | c1 :: c2 :: rest =>
    simp only [mon2Tok] at h
    by_cases h1 : c1 = '1'
    · rw [if_pos h1] at h
      by_cases h012 : c2 = '0' ∨ c2 = '1' ∨ c2 = '2'
      · rw [if_pos h012] at h
        simp only [Option.some.injEq, Prod.mk.injEq] at h
        obtain ⟨hv, hr⟩ := h
        exact ⟨c1, c2, by rw [hr], Or.inl ⟨h1, h012, hv.symm⟩⟩
      · rw [if_neg h012] at h
        exact Option.noConfusion h
    · rw [if_neg h1] at h
      by_cases h0 : c1 = '0'
      · rw [if_pos h0] at h
        by_cases hA : isA19 c2 = true
        · rw [if_pos hA] at h
          simp only [Option.some.injEq, Prod.mk.injEq] at h
          obtain ⟨hv, hr⟩ := h
          exact ⟨c1, c2, by rw [hr], Or.inr ⟨h0, hA, hv.symm⟩⟩
        · rw [if_neg hA] at h
          exact Option.noConfusion h
      · rw [if_neg h0] at h
        exact Option.noConfusion h

theorem mon1Tok_shape (cs : List Char) (v : Nat) (r : List Char)
    (h : mon1Tok cs = some (v, r)) :
    ∃ c, cs = c :: r ∧ monShape [c] v := by
  match cs with
  | [] => exact Option.noConfusion h
  | c :: rest =>
    simp only [mon1Tok] at h
    by_cases hA : isA19 c = true
    · rw [if_pos hA] at h
      simp only [Option.some.injEq, Prod.mk.injEq] at h
      obtain ⟨hv, hr⟩ := h
      exact ⟨c, by rw [hr], hA, hv.symm⟩
    · rw [if_neg hA] at h
      exact Option.noConfusion h

theorem year4Tok_shape (cs : List Char) (y : Nat) (r : List Char)
    (h : year4Tok cs = some (y, r)) :
    ∃ C, cs = C ++ r ∧ yearShape C y := by
  match cs with
  | [] => exact Option.noConfusion h
  | [_] => exact Option.noConfusion h
  | [_, _] => exact Option.noConfusion h
  | [_, _, _] => exact Option.noConfusion h
  | a :: b :: c :: d :: rest =>
    simp only [year4Tok] at h
    cases hva : ndVal a with
    | none => rw [hva] at h; exact Option.noConfusion h
    | some va =>
      cases hvb : ndVal b with
      | none => rw [hva, hvb] at h; exact Option.noConfusion h
      | some vb =>
        cases hvc : ndVal c with
        | none => rw [hva, hvb, hvc] at h; exact Option.noConfusion h
        | some vc =>
          cases hvd : ndVal d with
          | none => rw [hva, hvb, hvc, hvd] at h; exact Option.noConfusion h
          | some vd =>
            rw [hva, hvb, hvc, hvd] at h
            simp only [Option.some.injEq, Prod.mk.injEq] at h
            obtain ⟨hv, hr⟩ := h
            exact ⟨[a, b, c, d], by rw [hr]; rfl,
              a, b, c, d, va, vb, vc, vd, rfl, hva, hvb, hvc, hvd, hv.symm⟩

theorem day2Tok_build (c1 c2 : Char) (v : Nat) (tail : List Char)
    (h : (c1 = '3' ∧ (c2 = '0' ∨ c2 = '1') ∧ v = 30 + (c2.toNat - 48)) ∨
         ((c1 = '1' ∨ c1 = '2') ∧
           ∃ w, ndVal c2 = some w ∧ v = 10 * (c1.toNat - 48) + w) ∨
         (c1 = '0' ∧ isA19 c2 = true ∧ v = c2.toNat - 48)) :
    day2Tok (c1 :: c2 :: tail) = some (v, tail) := by
  simp only [day2Tok]
  rcases h with ⟨h3, h01, hv⟩ | ⟨h12, w, hw, hv⟩ | ⟨h0, hA, hv⟩
  · rw [if_pos h3, if_pos h01, hv]
  · have hn3 : ¬c1 = '3' := by
      rcases h12 with h | h <;> rw [h] <;> decide
    rw [if_neg hn3, if_pos h12, hw, hv]
  · have hn3 : ¬c1 = '3' := by rw [h0]; decide
    have hn12 : ¬(c1 = '1' ∨ c1 = '2') := by rw [h0]; decide
    rw [if_neg hn3, if_neg hn12, if_pos h0, if_pos hA, hv]

theorem day1Tok_build (c : Char) (v : Nat) (tail : List Char) (h : dayShape [c] v) :
    day1Tok (c :: tail) = some (v, tail) := by
  obtain ⟨hA, hv⟩ := h
  simp only [day1Tok, if_pos hA, hv]

theorem day2Tok_dash_none (c : Char) (tail : List Char) (hA : isA19 c = true) :
    day2Tok (c :: '-' :: tail) = none := by
  have h0 : ¬c = '0' := by
    intro he
    rw [he] at hA
    exact absurd hA (by decide)
  simp only [day2Tok]
  by_cases h3 : c = '3'
  · rw [if_pos h3, if_neg (by decide : ¬('-' = '0' ∨ '-' = '1'))]
  · rw [if_neg h3]
    by_cases h12 : c = '1' ∨ c = '2'
    · rw [if_pos h12, ndVal_dash]
    · rw [if_neg h12, if_neg h0]

theorem day2Tok_space_none (c2 : Char) (tail : List Char) :
    day2Tok (' ' :: c2 :: tail) = none := by
  simp only [day2Tok]
  rw [if_neg (by decide : ¬(' ' = '3')),
    if_neg (by decide : ¬(' ' = '1' ∨ ' ' = '2')),
    if_neg (by decide : ¬(' ' = '0'))]

theorem day1Tok_space_none (r : List Char) :
    day1Tok (' ' :: r) = none := by
  simp only [day1Tok]
  rw [if_neg (by decide : ¬isA19 ' ' = true)]

theorem daySpTok_build (c2 : Char) (v : Nat) (tail : List Char)
    (hA : isA19 c2 = true) (hv : v = c2.toNat - 48) :
    daySpTok (' ' :: c2 :: tail) = some (v, tail) := by
  simp [daySpTok, hA, hv]

theorem mon2Tok_build (c1 c2 : Char) (v : Nat) (tail : List Char)
    (h : monShape [c1, c2] v) :
    mon2Tok (c1 :: c2 :: tail) = some (v, tail) := by
  simp only [mon2Tok]
  rcases h with ⟨h1, h012, hv⟩ | ⟨h0, hA, hv⟩
  · rw [if_pos h1, if_pos h012, hv]
  · have hn1 : ¬c1 = '1' := by rw [h0]; decide
    rw [if_neg hn1, if_pos h0, if_pos hA, hv]

theorem mon1Tok_build (c : Char) (v : Nat) (tail : List Char) (h : monShape [c] v) :
    mon1Tok (c :: tail) = some (v, tail) := by
  obtain ⟨hA, hv⟩ := h
  simp only [mon1Tok, if_pos hA, hv]

theorem mon2Tok_dash_none (c : Char) (tail : List Char) (hA : isA19 c = true) :
    mon2Tok (c :: '-' :: tail) = none := by
  have h0 : ¬c = '0' := by
    intro he
    rw [he] at hA
    exact absurd hA (by decide)
  simp only [mon2Tok]
  by_cases h1 : c = '1'
  · rw [if_pos h1, if_neg (by decide : ¬('-' = '0' ∨ '-' = '1' ∨ '-' = '2'))]
  · rw [if_neg h1, if_neg h0]

theorem year4Tok_build (C : List Char) (y : Nat) (tail : List Char)
    (h : yearShape C y) :
    year4Tok (C ++ tail) = some (y, tail) := by
  obtain ⟨a, b, c, d, va, vb, vc, vd, hC, hva, hvb, hvc, hvd, hy⟩ := h
  rw [hC]
  simp only [List.cons_append, List.nil_append, year4Tok, hva, hvb, hvc, hvd, hy]

theorem matchAfterMonth_shape (d m : Nat) (cs : List Char) (d2 m2 y : Nat)
    (rest : List Char)
    (h : matchAfterMonth d m cs = some (d2, m2, y, rest)) :
    d2 = d ∧ m2 = m ∧ ∃ C, cs = '-' :: (C ++ rest) ∧ yearShape C y := by
  cases hdash : dashTok cs with
  | none =>
    simp only [matchAfterMonth, hdash] at h
    exact Option.noConfusion h
  | some r =>
    have hcs : cs = '-' :: r := dashTok_cons cs r hdash
    cases hy : year4Tok r with
    | none =>
      simp only [matchAfterMonth, hdash, hy] at h
      exact Option.noConfusion h
    | some p =>
      obtain ⟨y0, r2⟩ := p
      simp only [matchAfterMonth, hdash, hy, Option.some.injEq, Prod.mk.injEq] at h
      obtain ⟨hd, hm, hy0, hr2⟩ := h
      obtain ⟨C, hrC, hys⟩ := year4Tok_shape r y0 r2 hy
      refine ⟨hd.symm, hm.symm, C, ?_, hy0 ▸ hys⟩
      rw [hcs, hrC, hr2]

theorem matchAfterMonth_build (d m y : Nat) (C tail : List Char)
    (hy : yearShape C y) :
    matchAfterMonth d m ('-' :: (C ++ tail)) = some (d, m, y, tail) := by
  simp only [matchAfterMonth, dashTok_dash, year4Tok_build C y tail hy]

theorem matchAfterDay_shape (d : Nat) (cs : List Char) (d2 m y : Nat)
    (rest : List Char)
    (h : matchAfterDay d cs = some (d2, m, y, rest)) :
    d2 = d ∧ ∃ B C, cs = '-' :: (B ++ '-' :: (C ++ rest)) ∧
      monShape B m ∧ yearShape C y := by
  cases hdash : dashTok cs with
  | none =>
    simp only [matchAfterDay, hdash] at h
    exact Option.noConfusion h
  | some r =>
    have hcs : cs = '-' :: r := dashTok_cons cs r hdash
    subst hcs
    cases hm2 : mon2Tok r with
    | some p =>
      obtain ⟨m0, r2⟩ := p
      cases hmm : matchAfterMonth d m0 r2 with
      | some res =>
        simp only [matchAfterDay, dashTok_dash, hm2, hmm, Option.some.injEq] at h
        rw [h] at hmm
        obtain ⟨hd, hm, C, hrC, hys⟩ := matchAfterMonth_shape d m0 r2 d2 m y rest hmm
        obtain ⟨c1, c2, hrB, hms⟩ := mon2Tok_shape r m0 r2 hm2
        refine ⟨hd, [c1, c2], C, ?_, hm ▸ hms, hys⟩
        rw [hrB, hrC]
        rfl
      | none =>
        cases hm1 : mon1Tok r with
        | some p2 =>
          obtain ⟨m1, r3⟩ := p2
          simp only [matchAfterDay, dashTok_dash, hm2, hmm, hm1] at h
          obtain ⟨hd, hm, C, hrC, hys⟩ := matchAfterMonth_shape d m1 r3 d2 m y rest h
          obtain ⟨c, hrB, hms⟩ := mon1Tok_shape r m1 r3 hm1
          refine ⟨hd, [c], C, ?_, hm ▸ hms, hys⟩
          rw [hrB, hrC]
          rfl
        | none =>
          simp only [matchAfterDay, dashTok_dash, hm2, hmm, hm1] at h
          exact Option.noConfusion h
    | none =>
      cases hm1 : mon1Tok r with
      | some p2 =>
        obtain ⟨m1, r3⟩ := p2
        simp only [matchAfterDay, dashTok_dash, hm2, hm1] at h
        obtain ⟨hd, hm, C, hrC, hys⟩ := matchAfterMonth_shape d m1 r3 d2 m y rest h
        obtain ⟨c, hrB, hms⟩ := mon1Tok_shape r m1 r3 hm1
        refine ⟨hd, [c], C, ?_, hm ▸ hms, hys⟩
        rw [hrB, hrC]
        rfl
      | none =>
        simp only [matchAfterDay, dashTok_dash, hm2, hm1] at h
        exact Option.noConfusion h

theorem matchAfterDay_build (d m y : Nat) (B C tail : List Char)
    (hm : monShape B m) (hy : yearShape C y) :
    matchAfterDay d ('-' :: (B ++ '-' :: (C ++ tail))) = some (d, m, y, tail) := by
  match B, hm with
  | [c], hm =>
    have h2 : mon2Tok (c :: '-' :: (C ++ tail)) = none := mon2Tok_dash_none c _ hm.1
    have h1 : mon1Tok (c :: '-' :: (C ++ tail)) = some (m, '-' :: (C ++ tail)) :=
      mon1Tok_build c m _ hm
    simp only [List.cons_append, List.nil_append, matchAfterDay, dashTok_dash,
      h2, h1, matchAfterMonth_build d m y C tail hy]
  | [c1, c2], hm =>
    have h2 : mon2Tok (c1 :: c2 :: ('-' :: (C ++ tail))) =
        some (m, '-' :: (C ++ tail)) := mon2Tok_build c1 c2 m _ hm
    simp only [List.cons_append, List.nil_append, matchAfterDay, dashTok_dash,
      h2, matchAfterMonth_build d m y C tail hy]
  | [], hm => exact hm.elim
  | _ :: _ :: _ :: _, hm => exact hm.elim

theorem dayBranch_shape (tok : List Char → Option (Nat × List Char))
    (cs : List Char) (d m y : Nat) (rest : List Char)
    (htok : ∀ v r, tok cs = some (v, r) → ∃ A, cs = A ++ r ∧ dayShape A v)
    (h : dayBranch tok cs = some (d, m, y, rest)) :
    ∃ A B C, cs = A ++ '-' :: (B ++ '-' :: (C ++ rest)) ∧
      dayShape A d ∧ monShape B m ∧ yearShape C y := by
  cases ht : tok cs with
  | none =>
    simp only [dayBranch, ht] at h
    exact Option.noConfusion h
  | some p =>
    obtain ⟨d0, r0⟩ := p
    simp only [dayBranch, ht] at h
    obtain ⟨hd, B, C, hr0, hms, hys⟩ := matchAfterDay_shape d0 r0 d m y rest h
    obtain ⟨A, hcs, hds⟩ := htok d0 r0 ht
    refine ⟨A, B, C, ?_, hd ▸ hds, hms, hys⟩
    rw [hcs, hr0]

theorem matchDMY_shape (cs : List Char) (d m y : Nat) (rest : List Char)
    (h : matchDMY cs = some (d, m, y, rest)) :
    ∃ A B C, cs = A ++ '-' :: (B ++ '-' :: (C ++ rest)) ∧
      dayShape A d ∧ monShape B m ∧ yearShape C y := by
  have h2A : ∀ v r, day2Tok cs = some (v, r) → ∃ A, cs = A ++ r ∧ dayShape A v := by
    intro v r hh
    obtain ⟨c1, c2, hcs, hds⟩ := day2Tok_shape cs v r hh
    exact ⟨[c1, c2], by rw [hcs]; rfl, hds⟩
  have h1A : ∀ v r, day1Tok cs = some (v, r) → ∃ A, cs = A ++ r ∧ dayShape A v := by
    intro v r hh
    obtain ⟨c, hcs, hds⟩ := day1Tok_shape cs v r hh
    exact ⟨[c], by rw [hcs]; rfl, hds⟩
  have hSA : ∀ v r, daySpTok cs = some (v, r) → ∃ A, cs = A ++ r ∧ dayShape A v := by
    intro v r hh
    obtain ⟨c1, c2, hcs, hds⟩ := daySpTok_shape cs v r hh
    exact ⟨[c1, c2], by rw [hcs]; rfl, hds⟩
  cases hb2 : dayBranch day2Tok cs with
  | some res =>
    simp only [matchDMY, hb2, Option.some.injEq] at h
    rw [h] at hb2
    exact dayBranch_shape day2Tok cs d m y rest h2A hb2
  | none =>
    cases hb1 : dayBranch day1Tok cs with
    | some res =>
      simp only [matchDMY, hb2, hb1, Option.some.injEq] at h
      rw [h] at hb1
      exact dayBranch_shape day1Tok cs d m y rest h1A hb1
    | none =>
      simp only [matchDMY, hb2, hb1] at h
      exact dayBranch_shape daySpTok cs d m y rest hSA h

theorem matchDMY_build (d m y : Nat) (A B C tail : List Char)
    (hd : dayShape A d) (hm : monShape B m) (hy : yearShape C y) :
    matchDMY (A ++ '-' :: (B ++ '-' :: (C ++ tail))) = some (d, m, y, tail) := by
  match A, hd with
  | [c], hd =>
    have h2 : day2Tok (c :: '-' :: (B ++ '-' :: (C ++ tail))) = none :=
      day2Tok_dash_none c _ hd.1
    have h1 : day1Tok (c :: '-' :: (B ++ '-' :: (C ++ tail))) =
        some (d, '-' :: (B ++ '-' :: (C ++ tail))) := day1Tok_build c d _ hd
    simp only [List.cons_append, List.nil_append, matchDMY, dayBranch, h2, h1,
      matchAfterDay_build d m y B C tail hm hy]
  | [c1, c2], hd =>
    rcases hd with h | h | h | hsp
    · have h2 : day2Tok (c1 :: c2 :: ('-' :: (B ++ '-' :: (C ++ tail)))) =
          some (d, '-' :: (B ++ '-' :: (C ++ tail))) :=
        day2Tok_build c1 c2 d _ (Or.inl h)
      simp only [List.cons_append, List.nil_append, matchDMY, dayBranch, h2,
        matchAfterDay_build d m y B C tail hm hy]
    · have h2 : day2Tok (c1 :: c2 :: ('-' :: (B ++ '-' :: (C ++ tail)))) =
          some (d, '-' :: (B ++ '-' :: (C ++ tail))) :=
        day2Tok_build c1 c2 d _ (Or.inr (Or.inl h))
      simp only [List.cons_append, List.nil_append, matchDMY, dayBranch, h2,
        matchAfterDay_build d m y B C tail hm hy]
    · have h2 : day2Tok (c1 :: c2 :: ('-' :: (B ++ '-' :: (C ++ tail)))) =
          some (d, '-' :: (B ++ '-' :: (C ++ tail))) :=
        day2Tok_build c1 c2 d _ (Or.inr (Or.inr h))
      simp only [List.cons_append, List.nil_append, matchDMY, dayBranch, h2,
        matchAfterDay_build d m y B C tail hm hy]
    · obtain ⟨hc1, hA, hv⟩ := hsp
      subst hc1
      have h2 : day2Tok (' ' :: c2 :: ('-' :: (B ++ '-' :: (C ++ tail)))) = none :=
        day2Tok_space_none c2 _
      have h1 : day1Tok (' ' :: c2 :: ('-' :: (B ++ '-' :: (C ++ tail)))) = none :=
        day1Tok_space_none _
      have hspT : daySpTok (' ' :: c2 :: ('-' :: (B ++ '-' :: (C ++ tail)))) =
          some (d, '-' :: (B ++ '-' :: (C ++ tail))) := daySpTok_build c2 d _ hA hv
      simp only [List.cons_append, List.nil_append, matchDMY, dayBranch, h2, h1, hspT,
        matchAfterDay_build d m y B C tail hm hy]
  | [], hd => exact hd.elim
  | _ :: _ :: _ :: _, hd => exact hd.elim

theorem strptime_some_iff (s : String) :
    (∃ d m y, strptime_dmY s = some (d, m, y)) ↔ birthdaySpec s := by
  constructor
  · rintro ⟨d, m, y, h⟩
    cases hm : matchDMY s.data with
    | none =>
      simp only [strptime_dmY, hm] at h
      exact Option.noConfusion h
    | some q =>
      obtain ⟨d0, m0, y0, rest⟩ := q
      simp only [strptime_dmY, hm] at h
      cases rest with
      | cons c rest2 => simp at h
      | nil =>
        simp only [List.isEmpty_nil, if_true] at h
        by_cases hv : isValidDate y0 m0 d0 = true
        · obtain ⟨A, B, C, hdata, hds, hms, hys⟩ := matchDMY_shape s.data d0 m0 y0 [] hm
          rw [List.append_nil] at hdata
          exact ⟨A, B, C, d0, m0, y0, hdata, hds, hms, hys, hv⟩
        · rw [if_neg hv] at h
          exact Option.noConfusion h
  · rintro ⟨A, B, C, d, m, y, hdata, hds, hms, hys, hv⟩
    have hC : C ++ ([] : List Char) = C := List.append_nil C
    have hmatch : matchDMY s.data = some (d, m, y, []) := by
      rw [hdata, ← hC]
      exact matchDMY_build d m y A B C [] hds hms hys
    refine ⟨d, m, y, ?_⟩
    simp only [strptime_dmY, hmatch, List.isEmpty_nil, if_true, if_pos hv]

/-- C7: corrected.  `Birthday` accepts `raw` iff it has the form
day-dash-month-dash-year where the day is `3[01]`, `[12]\d`, `0[1-9]`,
a single `[1-9]` digit, or a space followed by a `[1-9]` digit (the
` [1-9]` alternative CPython keeps in `%d`), the month is `1[0-2]`,
`0[1-9]` or a single `[1-9]` digit, the year is exactly four decimal
digits, and the triple is a date the `datetime` constructor allows
(year at least 1, day not past the month's end) — zero padding of day
and month is NOT required, contrary to the claim; on success the
stored value is `raw` itself. -/
theorem C7_parse_birthday (raw : String) :
    (Birthday.init raw = .ok ⟨raw⟩ ↔ birthdaySpec raw) ∧
      ∀ bd, Birthday.init raw = .ok bd → bd = ⟨raw⟩ := by
  constructor
  · rw [← strptime_some_iff raw]
    cases hs : strptime_dmY raw with
    | some t =>
      obtain ⟨d, mm, yy⟩ := t
      simp only [Birthday.init, hs]
      constructor
      · intro _
        exact ⟨d, mm, yy, rfl⟩
      · intro _
        trivial
    | none =>
      simp only [Birthday.init, hs]
      constructor
      · intro h
        exact Except.noConfusion h
      · rintro ⟨d, mm, yy, h⟩
        exact Option.noConfusion h
  · intro bd h
    cases hs : strptime_dmY raw with
    | some t =>
      simp only [Birthday.init, hs] at h
      injection h with h2
      exact h2.symm
    | none =>
      simp only [Birthday.init, hs] at h
      exact Except.noConfusion h

/-- C7: witness.  The non-zero-padded day string "1-01-2000" satisfies
the corrected acceptance condition. -/
theorem C7_witness : birthdaySpec "1-01-2000" :=
  (C7_parse_birthday "1-01-2000").1.mp rfl

/-- C7: counterexample to the claim as stated.  "1-01-2000" deviates
from the zero-padded DD-MM-YYYY pattern (nine characters, day written
with one digit), yet `Birthday` accepts it. -/
theorem C7_counterexample :
    Birthday.init "1-01-2000" = .ok ⟨"1-01-2000"⟩ ∧ "1-01-2000".length = 9 :=
  ⟨rfl, rfl⟩
